import Mathlib

/-!
# merchantCache — verification of the entity-resolution core

Shallow embedding of the Go sources of the `merchantcache` repository:
`internal/abr/client.go` (candidate extraction, ranking and the two-stage
Lookup) and `internal/server/server.go` (the merchant cache handler).

Strings are modelled as `List Char`; Go's `strings.ToLower`,
`strings.TrimSpace`, `strings.Fields` and `strings.Contains` are embedded
as ASCII-faithful functions on character lists.  Go's `map[string]bool`
word sets become `Finset (List Char)`, whose cardinality models `len` of
the intersection map.  `float64` scores are modelled as `ℚ`: every value
the code manipulates (1000/500/100·n plus a parsed 0–100 registry score)
is exact in both representations.
-/

namespace MerchantCache

/-- ASCII whitespace, as recognised by `strings.TrimSpace` / `strings.Fields`
on ASCII input. -/
def isSpaceChar (c : Char) : Bool :=
  c == ' ' || c == '\t' || c == '\n' || c == '\r'

/-- `strings.ToLower` (ASCII fragment): lower-case every character. -/
def toLower (s : List Char) : List Char :=
  s.map Char.toLower

/-- `strings.TrimSpace`: drop leading and trailing whitespace. -/
def trim (s : List Char) : List Char :=
  ((s.dropWhile isSpaceChar).reverse.dropWhile isSpaceChar).reverse

/-- `strings.HasPrefix s pre` (used by `strings.TrimPrefix`). -/
def startsWith : List Char → List Char → Bool
  | _, [] => true
  | [], _ :: _ => false
  | c :: cs, d :: ds => c == d && startsWith cs ds

/-- `strings.Contains s sub`: `sub` occurs contiguously inside `s`. -/
def containsSub : List Char → List Char → Bool
  | [], sub => sub.isEmpty
  | c :: rest, sub => startsWith (c :: rest) sub || containsSub rest sub

/-- Helper for `fields`: accumulate the current word (reversed) while
scanning. -/
def fieldsAux : List Char → List Char → List (List Char)
  | [], cur => if cur.isEmpty then [] else [cur.reverse]
  | c :: rest, cur =>
    if isSpaceChar c then
      if cur.isEmpty then fieldsAux rest [] else cur.reverse :: fieldsAux rest []
    else fieldsAux rest (c :: cur)

/-- `strings.Fields`: split around runs of whitespace. -/
def fields (s : List Char) : List (List Char) :=
  fieldsAux s []

/-- `stringToSet` from `client.go`: a `map[string]bool` holding a set of
words.  Modelled as a `Finset`. -/
def stringToSet (strs : List (List Char)) : Finset (List Char) :=
  strs.toFinset

/-- `intersection` from `client.go`: keys present in both sets. -/
def intersection (a b : Finset (List Char)) : Finset (List Char) :=
  a ∩ b

/-- The `^\d{11}$` regular expression of `client.go`: exactly eleven ASCII
digits. -/
def abnPattern (s : List Char) : Bool :=
  s.length == 11 && s.all Char.isDigit

/-- Value of a digit string, most significant first. -/
def digitsVal (s : List Char) : Nat :=
  s.foldl (fun a c => a * 10 + (c.toNat - '0'.toNat)) 0

/-- `fmt.Sscanf(s, "%f", &x)`: parse a leading decimal number
(optional sign, digits, optional fractional part); trailing text is
ignored, failure leaves the destination untouched (modelled as `none`).
Exponent forms are not modelled; registry scores are plain 0–100
numerals. -/
def parseScore (s : List Char) : Option ℚ :=
  let s1 := s.dropWhile isSpaceChar
  let sign : ℚ := match s1 with
    | '-' :: _ => -1
    | _ => 1
  let s2 : List Char := match s1 with
    | '-' :: rest => rest
    | '+' :: rest => rest
    | _ => s1
  let ip := s2.takeWhile Char.isDigit
  let s3 := s2.dropWhile Char.isDigit
  let fp : List Char := match s3 with
    | '.' :: rest => rest.takeWhile Char.isDigit
    | _ => []
  if ip.isEmpty && fp.isEmpty then none
  else some (sign * ((digitsVal ip : ℚ) + (digitsVal fp : ℚ) / (10 : ℚ) ^ fp.length))

/-! ## Data model (`internal/abr/client.go`) -/

/-- `SearchResultsRecord`: one decoded `<searchResultsRecord>` element.
Nested one-field structs of the Go type are flattened. -/
structure SearchResultsRecord where
  identifierValue : List Char
  identifierStatus : List Char
  stateCode : List Char
  businessNameOrg : List Char
  businessNameScore : List Char
  mainNameOrg : List Char
  mainTradingNameOrg : List Char
  mainTradingNameScore : List Char
deriving DecidableEq, Repr

/-- `Result`: the post-filter candidate record of `client.go`. -/
structure Result where
  ABN : List Char
  State : List Char
  LegalName : List Char
  Score : List Char
deriving DecidableEq, Repr

/-- `Result{}`: the zero value, meaning "no match". -/
def emptyResult : Result :=
  { ABN := [], State := [], LegalName := [], Score := [] }

/-- Body of the extraction loop in `getAllResults`: turn one record into a
candidate, or skip it.  A record passes iff its trimmed identifier matches
`^\d{11}$` and its trimmed status is the literal `Active`; the legal name
is the first non-empty of businessName / mainName / mainTradingName, the
score the first non-empty of businessName score / mainTradingName score. -/
def extractRecord (rec : SearchResultsRecord) : Option Result :=
  let abn := trim rec.identifierValue
  let status := trim rec.identifierStatus
  if abnPattern abn && (status == "Active".toList) then
    let state := trim rec.stateCode
    let legalName0 := trim rec.businessNameOrg
    let legalName1 := if legalName0.isEmpty then trim rec.mainNameOrg else legalName0
    let legalName := if legalName1.isEmpty then trim rec.mainTradingNameOrg else legalName1
    let score0 := trim rec.businessNameScore
    let score := if score0.isEmpty then trim rec.mainTradingNameScore else score0
    some { ABN := abn, State := state, LegalName := legalName, Score := score }
  else none

/-- `getAllResults` restricted to the decoded record list (the XML/transport
part is handled by `getAllResultsXml` below). -/
def getAllResults (recs : List SearchResultsRecord) : List Result :=
  recs.filterMap extractRecord

/-! ## Ranking (`findBestResult`) -/

/-- The fixed company allow-list of `findBestResult`. -/
def companyKeywords : List (List Char) :=
  ["pty".toList, "limited".toList, "ltd".toList, "inc".toList,
   "corporation".toList, "corp".toList, "group".toList, "holding".toList]

/-- The fixed "unrelated business type" deny-list of `findBestResult`. -/
def unrelatedKeywords : List (List Char) :=
  ["cleaning".toList, "freight".toList, "toners".toList, "candles".toList,
   "music".toList, "ads".toList, "dogwash".toList]

/-- Body of the scoring loop of `findBestResult`: the three gates
(entity-type, lexical overlap, noise) applied in the code's order, then
the composite score for survivors.  `none` models `continue`. -/
def scoreEntry (searchLower : List Char) (searchWords : Finset (List Char))
    (result : Result) : Option (ℚ × Result) :=
  let nameLower := toLower result.LegalName
  let resultWords := stringToSet (fields nameLower)
  let isCompany := companyKeywords.any (fun keyword => containsSub nameLower keyword)
  if !isCompany then none
  else
    let commonWords := intersection searchWords resultWords
    if commonWords.card == 0 then none
    else
      let hasUnrelated := unrelatedKeywords.any (fun keyword => containsSub nameLower keyword)
      if hasUnrelated && decide (commonWords.card < 2) then none
      else
        let scoreValue : ℚ := (parseScore result.Score).getD 50
        let exactMatch : ℚ := if searchLower = nameLower then 1000 else 0
        let containsMatch : ℚ :=
          if containsSub searchLower nameLower || containsSub nameLower searchLower then 500 else 0
        let wordMatch : ℚ := (commonWords.card : ℚ) * 100
        some (exactMatch + containsMatch + wordMatch + scoreValue, result)

/-- The `scoredResults` slice of `findBestResult`: search-term
normalisation followed by the gated scoring loop. -/
def scoredResults (businessName : List Char) (results : List Result) :
    List (ℚ × Result) :=
  let searchLower := toLower (trim businessName)
  let searchWords := stringToSet (fields searchLower)
  results.filterMap (scoreEntry searchLower searchWords)

/-- The max-scan of `findBestResult`: start from the first scored entry and
replace it only on a strictly greater score (first-seen wins ties). -/
def selectBest (s0 : ℚ × Result) (rest : List (ℚ × Result)) : ℚ × Result :=
  rest.foldl (fun acc sr => if sr.1 > acc.1 then sr else acc) s0

/-- `findBestResult` from `client.go`. -/
def findBestResult (businessName : List Char) (results : List Result) : Result :=
  if results.isEmpty then emptyResult
  else
    match scoredResults businessName results with
    | [] => emptyResult
    | s0 :: rest => (selectBest s0 rest).2

/-! ## Two-stage Lookup (`client.go`, first revision in the file) -/

/-- The external collaborators of `Client.Lookup`: `searchByName` (HTTP
transport, may fail) and `xml.Unmarshal` (may fail to decode). -/
structure AbrEnv where
  search : List Char → Except Unit (List Char)
  decode : List Char → Option (List SearchResultsRecord)

/-- `getAllResults` on raw XML text: empty text or a decode error yields
the empty list, otherwise the extraction loop runs on the decoded
records. -/
def getAllResultsXml (env : AbrEnv) (xmlText : List Char) : List Result :=
  if xmlText.isEmpty then []
  else
    match env.decode xmlText with
    | none => []
    | some recs => getAllResults recs

/-- Stage 2 of `Lookup`: re-query with the Stage-1 legal name and scan for
an exact ABN match; on transport failure, decode failure or no match the
Stage-1 result is kept. -/
def stage2 (env : AbrEnv) (bestResult : Result) : Result :=
  match env.search bestResult.LegalName with
  | .error _ => bestResult
  | .ok xmlResponse2 =>
    match (getAllResultsXml env xmlResponse2).find?
        (fun result => result.ABN == bestResult.ABN) with
    | some result => result
    | none => bestResult

/-- `Client.Lookup`, the two-stage search → re-verify protocol.  The Go
function returns four named strings whose zero values mean "no match";
the quadruple is modelled as a `Result`. -/
def Lookup (env : AbrEnv) (businessName : List Char) : Result :=
  match env.search businessName with
  | .error _ => emptyResult
  | .ok xmlResponse =>
    let allResults := getAllResultsXml env xmlResponse
    let bestResult := findBestResult businessName allResults
    if bestResult.ABN.isEmpty then emptyResult
    else if bestResult.LegalName.isEmpty then bestResult
    else stage2 env bestResult

/-! ## The merchant cache (`internal/server/server.go`)

`handleMerchantAPI` derives the merchant name from the URL path, rejects
names absent from the preloaded `results` map, then consults the cache
(`RLock` read), and on a miss fetches the ABR results (`GetAllResults`,
one registry search) and the Google info before storing the assembled
`MerchantResult` (`Lock` write).  Go's `map[string]MerchantResult` is
modelled as an association list whose insert prepends (lookup sees the
newest binding, like a map store). -/

/-- The fields of `google.MerchantInfo` the handler reads. -/
structure GoogleInfo where
  legalName : List Char
  state : List Char
  postcode : List Char
deriving DecidableEq, Repr

/-- `server.MerchantResult`. -/
structure MerchantResult where
  name : List Char
  googleLegalName : List Char
  googleState : List Char
  googlePostcode : List Char
  abnFound : List Char
  abnLegalName : List Char
  abnState : List Char
  verified : List Char
  abnCount : Nat
  allABNResults : List Result
deriving DecidableEq, Repr

/-- Association-list read (`m[k]` with the comma-ok idiom). -/
def lookupList {K V : Type} [DecidableEq K] : List (K × V) → K → Option V
  | [], _ => none
  | (k, v) :: rest, key => if key = k then some v else lookupList rest key

/-- Association-list write (`m[k] = v`); the new binding shadows older
ones. -/
def insertList {K V : Type} (c : List (K × V)) (k : K) (v : V) : List (K × V) :=
  (k, v) :: c

/-- The handler's collaborators: the preloaded CSV `results` map, the ABR
client's `GetAllResults` (one registry search per call) and the Google
client's `ExtractMerchantInfo` (whose error the handler discards). -/
structure ServerEnv where
  results : List (List Char × MerchantResult)
  fetch : List Char → List Result
  ginfo : List Char → GoogleInfo

/-- The miss path of `handleMerchantAPI`: fill the CSV row with the ABR
result list, its length, and the Google fields. -/
def buildResult (env : ServerEnv) (base : MerchantResult)
    (merchantName : List Char) : MerchantResult :=
  let allResults := env.fetch merchantName
  let googleInfo := env.ginfo merchantName
  { base with
    allABNResults := allResults
    abnCount := allResults.length
    googleLegalName := googleInfo.legalName
    googleState := googleInfo.state
    googlePostcode := googleInfo.postcode }

/-- `strings.TrimPrefix s pre`. -/
def trimPrefixOf (s pre : List Char) : List Char :=
  if startsWith s pre then s.drop pre.length else s

/-- `strings.Trim s "/"`: strip leading and trailing slashes. -/
def trimSlash (s : List Char) : List Char :=
  ((s.dropWhile (· == '/')).reverse.dropWhile (· == '/')).reverse

/-- Cache-key derivation of `handleMerchantAPI`: strip the route prefix,
then surrounding slashes.  No whitespace trimming or case folding is
performed. -/
def cacheKey (path : List Char) : List Char :=
  trimSlash (trimPrefixOf path "/api/merchant/".toList)

/-- One sequential run of the `handleMerchantAPI` body for a given
merchant name: the returned triple is (response body, cache afterwards,
whether the registry fetch ran).  `none` models the 404 path. -/
def handleMerchant (env : ServerEnv) (cache : List (List Char × MerchantResult))
    (merchantName : List Char) :
    Option MerchantResult × List (List Char × MerchantResult) × Bool :=
  match lookupList env.results merchantName with
  | none => (none, cache, false)
  | some result =>
    match lookupList cache merchantName with
    | some cachedResult => (some cachedResult, cache, false)
    | none =>
      let filled := buildResult env result merchantName
      (some filled, insertList cache merchantName filled, true)

/-- `handleMerchantAPI` from the raw URL path. -/
def handlePath (env : ServerEnv) (cache : List (List Char × MerchantResult))
    (path : List Char) :
    Option MerchantResult × List (List Char × MerchantResult) × Bool :=
  handleMerchant env cache (cacheKey path)

/-! ### Interleaving model of two concurrent handler invocations

The handler holds no lock between its cache read and its cache write, so
two requests interleave at three atomic points: the read (results map +
`RLock`ed cache read), the unlocked fetch/Google computation, and the
`Lock`ed write.  A schedule is a list of booleans naming which caller
moves next. -/

/-- Where one handler invocation stands. -/
inductive Phase where
  | start
  | missed (base : MerchantResult)
  | computed (filled : MerchantResult)
  | finished (response : Option MerchantResult)
deriving DecidableEq, Repr

/-- The shared cache plus both callers' phases; `fa`/`fb` record whether
each caller has run the registry fetch. -/
structure Config2 where
  cache : List (List Char × MerchantResult)
  pa : Phase
  pb : Phase
  fa : Bool
  fb : Bool
deriving DecidableEq, Repr

/-- One atomic move of one handler invocation. -/
def advance (env : ServerEnv) (merchantName : List Char)
    (cache : List (List Char × MerchantResult)) :
    Phase → Phase × List (List Char × MerchantResult) × Bool
  | .start =>
    match lookupList env.results merchantName with
    | none => (.finished none, cache, false)
    | some base =>
      match lookupList cache merchantName with
      | some v => (.finished (some v), cache, false)
      | none => (.missed base, cache, false)
  | .missed base => (.computed (buildResult env base merchantName), cache, true)
  | .computed filled =>
    (.finished (some filled), insertList cache merchantName filled, false)
  | .finished response => (.finished response, cache, false)

/-- Let the scheduled caller move (`true` moves caller A). -/
def step (env : ServerEnv) (nameA nameB : List Char) (cfg : Config2) :
    Bool → Config2
  | true =>
    let next := advance env nameA cfg.cache cfg.pa
    { cfg with pa := next.1, cache := next.2.1, fa := cfg.fa || next.2.2 }
  | false =>
    let next := advance env nameB cfg.cache cfg.pb
    { cfg with pb := next.1, cache := next.2.1, fb := cfg.fb || next.2.2 }

/-- Run a schedule. -/
def run (env : ServerEnv) (nameA nameB : List Char) (sched : List Bool)
    (cfg0 : Config2) : Config2 :=
  sched.foldl (step env nameA nameB) cfg0

/-- Cold cache, both callers at their first step. -/
def initConfig : Config2 :=
  { cache := [], pa := .start, pb := .start, fa := false, fb := false }

/-- How many registry fetches the two callers performed. -/
def fetchCount (cfg : Config2) : Nat :=
  (cond cfg.fa 1 0) + (cond cfg.fb 1 0)

/-- The value a completed handler invocation for `n` must deliver. -/
def expected (env : ServerEnv) (n : List Char) : Option MerchantResult :=
  match lookupList env.results n with
  | none => none
  | some base => some (buildResult env base n)

/-! ## String lemmas -/

theorem dropWhile_dropWhile (p : Char → Bool) (l : List Char) :
    (l.dropWhile p).dropWhile p = l.dropWhile p := by
  induction l with
  | nil => rfl
  | cons c rest ih =>
    by_cases h : p c
    · simp [List.dropWhile_cons, h, ih]
    · simp [List.dropWhile_cons, h]

theorem dropWhile_append_single (p : Char → Bool) (c : Char) (hc : p c = false)
    (l : List Char) : (l ++ [c]).dropWhile p = l.dropWhile p ++ [c] := by
  induction l with
  | nil => simp [List.dropWhile_cons, hc]
  | cons a rest ih =>
    by_cases h : p a <;> simp [List.dropWhile_cons, h, ih]

/-- Removing trailing `p`-characters preserves having no leading
`p`-characters. -/
theorem dropWhile_trimRight (p : Char → Bool) (m : List Char)
    (hm : m.dropWhile p = m) :
    ((m.reverse.dropWhile p).reverse).dropWhile p = (m.reverse.dropWhile p).reverse := by
  cases m with
  | nil => rfl
  | cons c m' =>
    have hc : p c = false := by
      by_contra hpc
      rw [Bool.not_eq_false] at hpc
      rw [List.dropWhile_cons, if_pos hpc] at hm
      have hlen := (List.dropWhile_sublist p (l := m')).length_le
      rw [hm] at hlen
      simp at hlen
    rw [List.reverse_cons, dropWhile_append_single p c hc, List.reverse_append]
    simp [List.dropWhile_cons, hc]

theorem trim_idem (s : List Char) : trim (trim s) = trim s := by
  have hs1 : (s.dropWhile isSpaceChar).dropWhile isSpaceChar = s.dropWhile isSpaceChar :=
    dropWhile_dropWhile isSpaceChar s
  show ((((trim s).dropWhile isSpaceChar).reverse.dropWhile isSpaceChar)).reverse = trim s
  rw [show (trim s).dropWhile isSpaceChar = trim s from
    dropWhile_trimRight isSpaceChar (s.dropWhile isSpaceChar) hs1]
  show (((((s.dropWhile isSpaceChar).reverse.dropWhile isSpaceChar).reverse).reverse).dropWhile
      isSpaceChar).reverse = trim s
  rw [List.reverse_reverse, dropWhile_dropWhile]
  rfl

theorem fieldsAux_spaces (t : List Char) (ht : ∀ c ∈ t, isSpaceChar c = true)
    (cur : List Char) :
    fieldsAux t cur = if cur.isEmpty then [] else [cur.reverse] := by
  induction t generalizing cur with
  | nil => rfl
  | cons c t' ih =>
    have hc : isSpaceChar c = true := ht c (by simp)
    have ht' : ∀ d ∈ t', isSpaceChar d = true := fun d hd => ht d (by simp [hd])
    have hnil := ih ht' []
    by_cases hcur : cur.isEmpty <;>
      simp [fieldsAux, hc, hcur, hnil]

theorem fieldsAux_append_spaces (t : List Char) (ht : ∀ c ∈ t, isSpaceChar c = true)
    (u cur : List Char) : fieldsAux (u ++ t) cur = fieldsAux u cur := by
  induction u generalizing cur with
  | nil =>
    rw [List.nil_append, fieldsAux_spaces t ht cur]
    rfl
  | cons a u' ih =>
    by_cases ha : isSpaceChar a <;> by_cases hcur : cur.isEmpty <;>
      simp [fieldsAux, ha, hcur, ih]

theorem fields_dropWhile (s : List Char) :
    fields (s.dropWhile isSpaceChar) = fields s := by
  induction s with
  | nil => rfl
  | cons c rest ih =>
    by_cases h : isSpaceChar c
    · rw [show (c :: rest).dropWhile isSpaceChar = rest.dropWhile isSpaceChar by
        simp [List.dropWhile_cons, h]]
      rw [ih]
      show fieldsAux rest [] = fieldsAux (c :: rest) []
      simp [fieldsAux, h]
    · rw [show (c :: rest).dropWhile isSpaceChar = c :: rest by
        simp [List.dropWhile_cons, h]]

theorem fields_trim (s : List Char) : fields (trim s) = fields s := by
  have h1 : fields (s.dropWhile isSpaceChar) = fields s := fields_dropWhile s
  have hsp : ∀ c ∈ (((s.dropWhile isSpaceChar).reverse.takeWhile isSpaceChar)).reverse,
      isSpaceChar c = true := by
    intro c hc
    rw [List.mem_reverse] at hc
    exact List.mem_takeWhile_imp hc
  have hdecomp : s.dropWhile isSpaceChar =
      trim s ++ ((s.dropWhile isSpaceChar).reverse.takeWhile isSpaceChar).reverse := by
    conv_lhs => rw [← List.reverse_reverse (s.dropWhile isSpaceChar),
      ← List.takeWhile_append_dropWhile isSpaceChar (s.dropWhile isSpaceChar).reverse]
    rw [List.reverse_append]
    rfl
  calc fields (trim s)
      = fieldsAux (trim s ++ ((s.dropWhile isSpaceChar).reverse.takeWhile isSpaceChar).reverse)
          [] := (fieldsAux_append_spaces _ hsp _ _).symm
    _ = fields (s.dropWhile isSpaceChar) := by rw [← hdecomp]; rfl
    _ = fields s := h1

theorem char_notSpace_of_ge (a : Char) (h : 33 ≤ a.toNat) : isSpaceChar a = false := by
  unfold isSpaceChar
  have w : ∀ (b : Char), b.toNat < 33 → (a == b) = false := by
    intro b hb
    rw [beq_eq_false_iff_ne]
    intro he
    rw [he] at h
    omega
  rw [w ' ' (by decide), w '\t' (by decide), w '\n' (by decide), w '\r' (by decide)]
  rfl

theorem isSpaceChar_toLower (c : Char) : isSpaceChar c.toLower = isSpaceChar c := by
  show isSpaceChar (if c.toNat ≥ 65 ∧ c.toNat ≤ 90 then Char.ofNat (c.toNat + 32) else c) =
    isSpaceChar c
  by_cases h : c.toNat ≥ 65 ∧ c.toNat ≤ 90
  · have hv : (c.toNat + 32).isValidChar := Or.inl (by omega)
    have ht : (Char.ofNat (c.toNat + 32)).toNat = c.toNat + 32 := by
      unfold Char.ofNat
      rw [dif_pos hv]
      rfl
    rw [if_pos h, char_notSpace_of_ge _ (by rw [ht]; omega),
      char_notSpace_of_ge c (by omega)]
  · rw [if_neg h]

theorem toLower_trim (s : List Char) : toLower (trim s) = trim (toLower s) := by
  have hpf : (isSpaceChar ∘ Char.toLower) = isSpaceChar := by
    funext c
    exact isSpaceChar_toLower c
  show (((s.dropWhile isSpaceChar).reverse.dropWhile isSpaceChar).reverse).map Char.toLower =
    (((s.map Char.toLower).dropWhile isSpaceChar).reverse.dropWhile isSpaceChar).reverse
  rw [List.dropWhile_map, hpf, ← List.map_reverse, List.dropWhile_map, hpf, List.map_reverse]

theorem fields_toLower_trim (s : List Char) :
    fields (toLower (trim s)) = fields (toLower s) := by
  rw [toLower_trim, fields_trim]

/-! ## Association-list lemmas -/

theorem lookupList_insert_self {K V : Type} [DecidableEq K]
    (c : List (K × V)) (k : K) (v : V) :
    lookupList (insertList c k v) k = some v := by
  simp [insertList, lookupList]

theorem lookupList_insert_ne {K V : Type} [DecidableEq K]
    (c : List (K × V)) (k k2 : K) (v : V) (h : k2 ≠ k) :
    lookupList (insertList c k v) k2 = lookupList c k2 := by
  simp [insertList, lookupList, h]

/-! ## The max-scan: first element of maximal score wins -/

theorem selectBest_spec (s0 : ℚ × Result) (rest : List (ℚ × Result)) :
    ∃ pre suf, s0 :: rest = pre ++ selectBest s0 rest :: suf ∧
      (∀ x ∈ s0 :: rest, x.1 ≤ (selectBest s0 rest).1) ∧
      (∀ x ∈ pre, x.1 < (selectBest s0 rest).1) := by
  induction rest generalizing s0 with
  | nil =>
    refine ⟨[], [], rfl, ?_, by simp⟩
    intro x hx
    rw [List.mem_singleton] at hx
    rw [hx]
    exact le_of_eq rfl
  | cons sr rest' ih =>
    have hstep : selectBest s0 (sr :: rest') =
        selectBest (if sr.1 > s0.1 then sr else s0) rest' := rfl
    by_cases hgt : sr.1 > s0.1
    · obtain ⟨pre', suf', hdec, hmax, hpre⟩ := ih sr
      rw [hstep, if_pos hgt]
      have hsr : sr.1 ≤ (selectBest sr rest').1 := hmax sr (by simp)
      refine ⟨s0 :: pre', suf', by rw [List.cons_append, ← hdec], ?_, ?_⟩
      · intro x hx
        rcases List.mem_cons.mp hx with hx0 | hx1
        · rw [hx0]; exact le_of_lt (lt_of_lt_of_le hgt hsr)
        · exact hmax x hx1
      · intro x hx
        rcases List.mem_cons.mp hx with hx0 | hx1
        · rw [hx0]; exact lt_of_lt_of_le hgt hsr
        · exact hpre x hx1
    · obtain ⟨pre', suf', hdec, hmax, hpre⟩ := ih s0
      rw [hstep, if_neg hgt]
      push_neg at hgt
      cases pre' with
      | nil =>
        rw [List.nil_append] at hdec
        have hs0 : selectBest s0 rest' = s0 := by
          have := hdec
          rw [List.cons_eq_cons] at this
          exact this.1.symm
        refine ⟨[], sr :: rest', ?_, ?_, by simp⟩
        · rw [List.nil_append, hs0]
        · intro x hx
          rw [hs0]
          rcases List.mem_cons.mp hx with hx0 | hx1
          · rw [hx0]
          · rcases List.mem_cons.mp hx1 with hx2 | hx3
            · rw [hx2]; exact hgt
            · exact hs0 ▸ hmax x (List.mem_cons_of_mem s0 hx3)
      | cons q pre'' =>
        rw [List.cons_append, List.cons_eq_cons] at hdec
        obtain ⟨hq, hrest⟩ := hdec
        have hqlt : q.1 < (selectBest s0 rest').1 := hpre q (by simp)
        refine ⟨s0 :: sr :: pre'', suf', ?_, ?_, ?_⟩
        · rw [List.cons_append, List.cons_append, ← hrest]
        · intro x hx
          rcases List.mem_cons.mp hx with hx0 | hx1
          · rw [hx0]; exact le_of_lt (hq.symm ▸ hqlt)
          · rcases List.mem_cons.mp hx1 with hx2 | hx3
            · rw [hx2]
              exact le_of_lt (lt_of_le_of_lt (hq ▸ hgt) hqlt)
            · exact hmax x (List.mem_cons_of_mem s0 hx3)
        · intro x hx
          rcases List.mem_cons.mp hx with hx0 | hx1
          · rw [hx0]; exact hq.symm ▸ hqlt
          · rcases List.mem_cons.mp hx1 with hx2 | hx3
            · rw [hx2]
              exact lt_of_le_of_lt (hq ▸ hgt) hqlt
            · exact hpre x (by simp [hx3])

theorem selectBest_mem (s0 : ℚ × Result) (rest : List (ℚ × Result)) :
    selectBest s0 rest ∈ s0 :: rest := by
  obtain ⟨pre, suf, hdec, _, _⟩ := selectBest_spec s0 rest
  rw [hdec]
  exact List.mem_append_right pre (by simp)

/-! ## Extraction lemmas -/

theorem extractRecord_isSome_iff (rec : SearchResultsRecord) :
    (extractRecord rec).isSome = true ↔
      (abnPattern (trim rec.identifierValue) = true ∧
       trim rec.identifierStatus = "Active".toList) := by
  simp only [extractRecord]
  by_cases h : (abnPattern (trim rec.identifierValue) &&
      (trim rec.identifierStatus == "Active".toList)) = true
  · rw [if_pos h]
    rw [Bool.and_eq_true, beq_iff_eq] at h
    simp [h]
  · rw [if_neg h]
    rw [Bool.and_eq_true, beq_iff_eq] at h
    simp only [Option.isSome_none, Bool.false_eq_true, false_iff]
    simpa using h

theorem extractRecord_some_inv (rec : SearchResultsRecord) (r : Result)
    (h : extractRecord rec = some r) :
    r.ABN = trim rec.identifierValue ∧
    abnPattern r.ABN = true ∧
    trim rec.identifierStatus = "Active".toList ∧
    trim r.LegalName = r.LegalName := by
  simp only [extractRecord] at h
  split at h
  case isTrue hc =>
    rw [Bool.and_eq_true, beq_iff_eq] at hc
    rw [Option.some.injEq] at h
    subst h
    refine ⟨rfl, hc.1, hc.2, ?_⟩
    show trim (if _ then _ else _) = _
    split_ifs <;> exact trim_idem _
  case isFalse hc => exact absurd h (by simp)

theorem getAllResults_mem_inv (recs : List SearchResultsRecord) (r : Result)
    (h : r ∈ getAllResults recs) :
    ∃ rec0 ∈ recs, extractRecord rec0 = some r :=
  List.mem_filterMap.mp h

theorem getAllResults_legal_trimmed (recs : List SearchResultsRecord) (r : Result)
    (h : r ∈ getAllResults recs) : trim r.LegalName = r.LegalName := by
  obtain ⟨rec0, _, hsome⟩ := getAllResults_mem_inv recs r h
  exact (extractRecord_some_inv rec0 r hsome).2.2.2

/-! ## Scoring-loop lemmas -/

theorem scoreEntry_some_inv (sl : List Char) (sw : Finset (List Char)) (res : Result)
    (e : ℚ × Result) (h : scoreEntry sl sw res = some e) :
    e.2 = res ∧
    companyKeywords.any (fun keyword => containsSub (toLower res.LegalName) keyword) = true ∧
    e.1 = (if sl = toLower res.LegalName then (1000 : ℚ) else 0) +
        (if containsSub sl (toLower res.LegalName) || containsSub (toLower res.LegalName) sl
          then (500 : ℚ) else 0) +
        ((intersection sw (stringToSet (fields (toLower res.LegalName)))).card : ℚ) * 100 +
        (parseScore res.Score).getD 50 := by
  simp only [scoreEntry] at h
  split at h
  case isTrue => exact absurd h (by simp)
  case isFalse h1 =>
    split at h
    case isTrue => exact absurd h (by simp)
    case isFalse h2 =>
      split at h
      case isTrue => exact absurd h (by simp)
      case isFalse h3 =>
        rw [Option.some.injEq] at h
        refine ⟨by rw [← h], by simpa using h1, ?_⟩
        rw [← h]

theorem scoreEntry_isSome_iff (sl : List Char) (sw : Finset (List Char)) (res : Result) :
    (scoreEntry sl sw res).isSome = true ↔
      (companyKeywords.any (fun keyword => containsSub (toLower res.LegalName) keyword) = true ∧
       (intersection sw (stringToSet (fields (toLower res.LegalName)))).card ≠ 0 ∧
       ¬(unrelatedKeywords.any (fun keyword => containsSub (toLower res.LegalName) keyword) = true ∧
         (intersection sw (stringToSet (fields (toLower res.LegalName)))).card < 2)) := by
  constructor
  · intro h
    rw [Option.isSome_iff_exists] at h
    obtain ⟨e, he⟩ := h
    simp only [scoreEntry] at he
    split at he
    case isTrue => simp at he
    case isFalse h1 =>
      split at he
      case isTrue => simp at he
      case isFalse h2 =>
        split at he
        case isTrue => simp at he
        case isFalse h3 =>
          refine ⟨by simpa using h1, by simpa using h2, ?_⟩
          simp only [Bool.and_eq_true, decide_eq_true_eq, not_and] at h3
          exact fun hcontra => h3 hcontra.1 hcontra.2
  · intro hall
    obtain ⟨hc, hcard, hnoise⟩ := hall
    simp only [scoreEntry]
    rw [if_neg (by simp [hc]), if_neg (by simpa using hcard),
      if_neg (by
        simp only [Bool.and_eq_true, decide_eq_true_eq, not_and]
        exact fun hu hlt => hnoise ⟨hu, hlt⟩)]
    simp

/-! ## Spec-side definitions

These follow the wording of the specification (not the code) and are
compared with the embedded code in the refinement theorems below. -/

/-- Spec normalisation: lower-cased, trimmed. -/
def normalize (s : List Char) : List Char := toLower (trim s)

/-- Spec tokenisation: case-insensitive, whitespace-delimited word set. -/
def specTokens (s : List Char) : Finset (List Char) :=
  stringToSet (fields (toLower s))

/-- Spec: the common words between the tokenized input name and the
tokenized candidate legal name. -/
def specCommonWords (inputName : List Char) (result : Result) : Finset (List Char) :=
  specTokens inputName ∩ specTokens result.LegalName

/-- Spec: 1000 exactly when the normalized input equals the normalized
legal name, else 0. -/
def specExactBonus (inputName : List Char) (result : Result) : ℚ :=
  if normalize inputName = normalize result.LegalName then 1000 else 0

/-- Spec: 500 exactly when one normalized string is a substring of the
other, else 0. -/
def specContainsBonus (inputName : List Char) (result : Result) : ℚ :=
  if containsSub (normalize inputName) (normalize result.LegalName) ||
     containsSub (normalize result.LegalName) (normalize inputName) then 500 else 0

/-- Spec: the candidate's raw match score when present, else the default
of 50. -/
def specRegistryScore (result : Result) : ℚ :=
  match parseScore result.Score with
  | some q => q
  | none => 50

/-- Spec: `score = exactMatchBonus + containsBonus + 100 * |commonWords| +
registryMatchScore`. -/
def specCompositeScore (inputName : List Char) (result : Result) : ℚ :=
  specExactBonus inputName result + specContainsBonus inputName result +
    100 * ((specCommonWords inputName result).card : ℚ) + specRegistryScore result

/-- Spec entity-type gate: the legal name (case-insensitive) contains at
least one keyword of the fixed company allow-list. -/
def specGateCompany (result : Result) : Prop :=
  ∃ keyword ∈ companyKeywords, containsSub (toLower result.LegalName) keyword = true

/-- Spec lexical-overlap gate: the word-set intersection is non-empty. -/
def specGateOverlap (inputName : List Char) (result : Result) : Prop :=
  (specCommonWords inputName result).Nonempty

/-- Spec noise gate: not (a deny-list keyword occurs in the legal name
while there are fewer than 2 common words). -/
def specGateNoise (inputName : List Char) (result : Result) : Prop :=
  ¬((∃ keyword ∈ unrelatedKeywords, containsSub (toLower result.LegalName) keyword = true) ∧
    (specCommonWords inputName result).card < 2)

theorem intersection_eq_specCommonWords (inputName : List Char) (result : Result) :
    intersection (stringToSet (fields (toLower (trim inputName))))
      (stringToSet (fields (toLower result.LegalName))) =
      specCommonWords inputName result := by
  unfold intersection specCommonWords specTokens
  rw [fields_toLower_trim]

/-! ## Claims about extraction and ranking -/

/-- Claim C3: a raw record yields a Candidate iff its trimmed identifier
matches `^\d{11}$` and its trimmed status is the literal "Active";
consequently every returned Candidate has a well-formed identifier and
stems from a record whose status was Active. -/
theorem extraction_active_wellformed (rec : SearchResultsRecord)
    (recs : List SearchResultsRecord) (r : Result) :
    ((extractRecord rec).isSome = true ↔
      (abnPattern (trim rec.identifierValue) = true ∧
       trim rec.identifierStatus = "Active".toList)) ∧
    (r ∈ getAllResults recs →
      abnPattern r.ABN = true ∧
      ∃ rec0 ∈ recs, trim rec0.identifierStatus = "Active".toList ∧
        extractRecord rec0 = some r) := by
  refine ⟨extractRecord_isSome_iff rec, ?_⟩
  intro hmem
  obtain ⟨rec0, hrec0, hsome⟩ := getAllResults_mem_inv recs r hmem
  obtain ⟨_, habn, hstatus, _⟩ := extractRecord_some_inv rec0 r hsome
  exact ⟨habn, rec0, hrec0, hstatus, hsome⟩

/-- Claim C4: every gate-surviving candidate's composite score equals
`exactMatchBonus + containsBonus + 100 * |commonWords| +
registryMatchScore` with the bonuses and default as the spec words them. -/
theorem composite_score_formula (recs : List SearchResultsRecord)
    (inputName : List Char) (r : Result) (e : ℚ × Result)
    (hmem : r ∈ getAllResults recs)
    (hscore : scoreEntry (toLower (trim inputName))
      (stringToSet (fields (toLower (trim inputName)))) r = some e) :
    e = (specCompositeScore inputName r, r) := by
  obtain ⟨h2, hco, h1⟩ := scoreEntry_some_inv _ _ _ _ hscore
  have htrim : trim r.LegalName = r.LegalName := getAllResults_legal_trimmed recs r hmem
  rw [Prod.ext_iff]
  refine ⟨?_, h2⟩
  rw [h1]
  unfold specCompositeScore specExactBonus specContainsBonus specRegistryScore normalize
  rw [intersection_eq_specCommonWords, htrim]
  cases hps : parseScore r.Score with
  | none =>
    dsimp only
    rw [Option.getD_none]
    ring
  | some q =>
    dsimp only
    rw [Option.getD_some]
    ring

/-- Claim C5: on a non-empty list of gate survivors, `findBestResult`
returns the entry with the highest composite score, and among equal
scores the earliest-occurring survivor (everything before the winner
scores strictly lower). -/
theorem rank_selects_first_max (businessName : List Char) (results : List Result)
    (h : scoredResults businessName results ≠ []) :
    ∃ q pre suf,
      scoredResults businessName results =
        pre ++ (q, findBestResult businessName results) :: suf ∧
      (∀ x ∈ scoredResults businessName results, x.1 ≤ q) ∧
      (∀ x ∈ pre, x.1 < q) := by
  have hres : results.isEmpty = false := by
    cases results with
    | nil => exact absurd rfl h
    | cons a l => rfl
  cases hsc : scoredResults businessName results with
  | nil => exact absurd hsc h
  | cons s0 rest =>
    have hfb : findBestResult businessName results = (selectBest s0 rest).2 := by
      unfold findBestResult
      rw [if_neg (by simp [hres]), hsc]
    obtain ⟨pre, suf, hdec, hmax, hpre⟩ := selectBest_spec s0 rest
    refine ⟨(selectBest s0 rest).1, pre, suf, ?_, ?_, ?_⟩
    · rw [hfb]
      exact hdec
    · exact hmax
    · exact hpre

/-- Claim C6: a candidate reaches scoring iff it passes all three spec
gates: company keyword in the legal name, non-empty word overlap with the
input, and not (deny-list keyword with fewer than 2 common words). -/
theorem gates_characterization (inputName : List Char) (result : Result) :
    (scoreEntry (toLower (trim inputName))
      (stringToSet (fields (toLower (trim inputName)))) result).isSome = true ↔
      (specGateCompany result ∧ specGateOverlap inputName result ∧
        specGateNoise inputName result) := by
  rw [scoreEntry_isSome_iff, intersection_eq_specCommonWords]
  unfold specGateCompany specGateOverlap specGateNoise
  simp only [List.any_eq_true, Finset.card_ne_zero]

/-! ## Lookup-layer lemmas and claims -/

theorem getAllResultsXml_decode_none (env : AbrEnv) (xml : List Char)
    (h : env.decode xml = none) : getAllResultsXml env xml = [] := by
  unfold getAllResultsXml
  by_cases hx : xml.isEmpty = true
  · rw [if_pos hx]
  · rw [if_neg hx, h]

theorem findBestResult_nil (businessName : List Char) :
    findBestResult businessName [] = emptyResult := rfl

theorem Lookup_eq_stage2 (env : AbrEnv) (businessName xml : List Char)
    (h : env.search businessName = .ok xml)
    (hA : (findBestResult businessName (getAllResultsXml env xml)).ABN ≠ [])
    (hL : (findBestResult businessName (getAllResultsXml env xml)).LegalName ≠ []) :
    Lookup env businessName =
      stage2 env (findBestResult businessName (getAllResultsXml env xml)) := by
  unfold Lookup
  rw [h]
  dsimp only
  rw [if_neg (by simpa using hA), if_neg (by simpa using hL)]

theorem findBestResult_company (businessName : List Char) (results : List Result)
    (hne : findBestResult businessName results ≠ emptyResult) :
    companyKeywords.any (fun keyword =>
      containsSub (toLower (findBestResult businessName results).LegalName) keyword) = true := by
  by_cases hres : results.isEmpty = true
  · exact absurd (by unfold findBestResult; rw [if_pos hres]) hne
  cases hsc : scoredResults businessName results with
  | nil => exact absurd (by unfold findBestResult; rw [if_neg hres, hsc]) hne
  | cons s0 rest =>
    have hfb : findBestResult businessName results = (selectBest s0 rest).2 := by
      unfold findBestResult
      rw [if_neg hres, hsc]
    have hmem : selectBest s0 rest ∈ scoredResults businessName results := by
      rw [hsc]
      exact selectBest_mem s0 rest
    simp only [scoredResults] at hmem
    obtain ⟨res0, _, hsE⟩ := List.mem_filterMap.mp hmem
    obtain ⟨he2, hcoY, _⟩ := scoreEntry_some_inv _ _ _ _ hsE
    rw [hfb, he2]
    exact hcoY

theorem any_company_nonempty (L : List Char)
    (h : companyKeywords.any (fun keyword => containsSub (toLower L) keyword) = true) :
    L ≠ [] := by
  intro hL
  rw [hL] at h
  exact absurd h (by decide)

/-- Claim C2: a Stage-1 transport failure, a Stage-1 decode failure, and a
legitimately empty decode all make `Lookup` return the empty
`ResolvedIdentity` — indistinguishable outcomes, and no error ever reaches
the caller (`Lookup` has no error channel). -/
theorem stage1_failures_yield_no_match (env : AbrEnv) (businessName xml : List Char) :
    (env.search businessName = .error () → Lookup env businessName = emptyResult) ∧
    (env.search businessName = .ok xml → env.decode xml = none →
      Lookup env businessName = emptyResult) ∧
    (env.search businessName = .ok xml → env.decode xml = some [] →
      Lookup env businessName = emptyResult) := by
  refine ⟨?_, ?_, ?_⟩
  · intro h
    unfold Lookup
    rw [h]
  · intro h hd
    unfold Lookup
    rw [h]
    dsimp only
    rw [getAllResultsXml_decode_none env xml hd, findBestResult_nil]
    rfl
  · intro h hd
    unfold Lookup
    rw [h]
    dsimp only
    have hempty : getAllResultsXml env xml = [] := by
      unfold getAllResultsXml
      by_cases hx : xml.isEmpty = true
      · rw [if_pos hx]
      · rw [if_neg hx, hd]
        rfl
    rw [hempty, findBestResult_nil]
    rfl

/-- Claim C7: when Stage 1 selects a candidate with a non-empty legal
name, Stage 2 re-queries with that legal name and scans for an exact
identifier match — replacing the result when found, and keeping the
Stage-1 result unchanged on no match, on a Stage-2 transport failure, or
on a Stage-2 decode failure. -/
theorem stage2_replace_or_keep (env : AbrEnv) (businessName xml1 : List Char)
    (best : Result)
    (h1 : env.search businessName = .ok xml1)
    (hbest : best = findBestResult businessName (getAllResultsXml env xml1))
    (hA : best.ABN ≠ []) (hL : best.LegalName ≠ []) :
    (env.search best.LegalName = .error () → Lookup env businessName = best) ∧
    (∀ xml2, env.search best.LegalName = .ok xml2 →
      ((env.decode xml2 = none → Lookup env businessName = best) ∧
       ((getAllResultsXml env xml2).find?
          (fun result => result.ABN == best.ABN) = none →
         Lookup env businessName = best) ∧
       (∀ result2,
         (getAllResultsXml env xml2).find?
           (fun result => result.ABN == best.ABN) = some result2 →
         Lookup env businessName = result2))) := by
  subst hbest
  have hmain := Lookup_eq_stage2 env businessName xml1 h1 hA hL
  refine ⟨?_, ?_⟩
  · intro he
    rw [hmain]
    unfold stage2
    rw [he]
  · intro xml2 hok
    refine ⟨?_, ?_, ?_⟩
    · intro hd
      rw [hmain]
      unfold stage2
      rw [hok]
      dsimp only
      rw [getAllResultsXml_decode_none env xml2 hd]
      rfl
    · intro hfind
      rw [hmain]
      unfold stage2
      rw [hok]
      dsimp only
      rw [hfind]
    · intro result2 hfind
      rw [hmain]
      unfold stage2
      rw [hok]
      dsimp only
      rw [hfind]

/-- Claim C10 (implicit): every non-empty winner of `findBestResult`
carries a company keyword in its legal name, hence a non-empty legal
name; consequently whenever Stage 1 selects a candidate (non-empty
identifier), the Stage-2 guard holds and Stage 2 is attempted. -/
theorem winner_company_and_stage2_always (businessName : List Char)
    (results : List Result) (r : Result) (env : AbrEnv) (xml : List Char) :
    (findBestResult businessName results = r → r ≠ emptyResult →
      ((∃ keyword ∈ companyKeywords, containsSub (toLower r.LegalName) keyword = true) ∧
        r.LegalName ≠ [])) ∧
    (env.search businessName = .ok xml →
      (findBestResult businessName (getAllResultsXml env xml)).ABN ≠ [] →
      ((findBestResult businessName (getAllResultsXml env xml)).LegalName ≠ [] ∧
        Lookup env businessName =
          stage2 env (findBestResult businessName (getAllResultsXml env xml)))) := by
  constructor
  · intro heq hne
    subst heq
    have hco := findBestResult_company businessName results hne
    exact ⟨List.any_eq_true.mp hco, any_company_nonempty _ hco⟩
  · intro hok hA
    have hne : findBestResult businessName (getAllResultsXml env xml) ≠ emptyResult := by
      intro hcontra
      apply hA
      rw [hcontra]
      rfl
    have hL := any_company_nonempty _
      (findBestResult_company businessName (getAllResultsXml env xml) hne)
    exact ⟨hL, Lookup_eq_stage2 env businessName xml hok hA hL⟩

/-! ## Cache-layer lemmas and claims -/

/-- What a handler invocation's phase may look like, given the immutable
environment. -/
def phaseOK (env : ServerEnv) (n : List Char) : Phase → Prop
  | .start => True
  | .missed base => lookupList env.results n = some base
  | .computed filled => expected env n = some filled
  | .finished response => response = expected env n

/-- Every cache entry holds the value the environment determines for its
key. -/
def cacheOK (env : ServerEnv) (cache : List (List Char × MerchantResult)) : Prop :=
  ∀ k v, lookupList cache k = some v → expected env k = some v

theorem advance_preserves (env : ServerEnv) (n : List Char)
    (cache : List (List Char × MerchantResult)) (p : Phase)
    (hc : cacheOK env cache) (hp : phaseOK env n p) :
    phaseOK env n (advance env n cache p).1 ∧ cacheOK env (advance env n cache p).2.1 := by
  cases p with
  | start =>
    unfold advance
    cases hres : lookupList env.results n with
    | none =>
      refine ⟨?_, hc⟩
      show (none : Option MerchantResult) = expected env n
      unfold expected
      rw [hres]
    | some base =>
      cases hcache : lookupList cache n with
      | some v =>
        refine ⟨?_, hc⟩
        show some v = expected env n
        exact (hc n v hcache).symm
      | none => exact ⟨hres, hc⟩
  | missed base =>
    refine ⟨?_, hc⟩
    show expected env n = some (buildResult env base n)
    unfold expected
    rw [hp]
  | computed filled =>
    constructor
    · show some filled = expected env n
      exact hp.symm
    · intro k v hkv
      unfold advance at hkv
      by_cases hk : k = n
      · subst hk
        rw [lookupList_insert_self] at hkv
        rw [Option.some.injEq] at hkv
        rw [← hkv]
        exact hp
      · rw [lookupList_insert_ne cache n k filled hk] at hkv
        exact hc k v hkv
  | finished response => exact ⟨hp, hc⟩

/-- The interleaving invariant for two concurrent handler invocations. -/
def Inv (env : ServerEnv) (nameA nameB : List Char) (cfg : Config2) : Prop :=
  cacheOK env cfg.cache ∧ phaseOK env nameA cfg.pa ∧ phaseOK env nameB cfg.pb

theorem step_preserves (env : ServerEnv) (nameA nameB : List Char)
    (cfg : Config2) (who : Bool) (h : Inv env nameA nameB cfg) :
    Inv env nameA nameB (step env nameA nameB cfg who) := by
  obtain ⟨hc, hpa, hpb⟩ := h
  cases who with
  | true =>
    obtain ⟨hp, hcache⟩ := advance_preserves env nameA cfg.cache cfg.pa hc hpa
    exact ⟨hcache, hp, hpb⟩
  | false =>
    obtain ⟨hp, hcache⟩ := advance_preserves env nameB cfg.cache cfg.pb hc hpb
    exact ⟨hcache, hpa, hp⟩

theorem run_preserves (env : ServerEnv) (nameA nameB : List Char)
    (sched : List Bool) (cfg : Config2) (h : Inv env nameA nameB cfg) :
    Inv env nameA nameB (run env nameA nameB sched cfg) := by
  induction sched generalizing cfg with
  | nil => exact h
  | cons w sched' ih => exact ih _ (step_preserves env nameA nameB cfg w h)

/-- Claim C9: a second sequential resolve for the same name returns the
stored result unchanged, leaves the cache unchanged, and performs no
registry fetch; the single cold miss performed exactly one fetch. -/
theorem cache_sequential_idempotent (env : ServerEnv)
    (cache : List (List Char × MerchantResult)) (merchantName : List Char)
    (hmiss : lookupList cache merchantName = none)
    (hknown : (lookupList env.results merchantName).isSome = true) :
    (handleMerchant env cache merchantName).2.2 = true ∧
    (handleMerchant env (handleMerchant env cache merchantName).2.1 merchantName).1 =
      (handleMerchant env cache merchantName).1 ∧
    (handleMerchant env (handleMerchant env cache merchantName).2.1 merchantName).2.1 =
      (handleMerchant env cache merchantName).2.1 ∧
    (handleMerchant env (handleMerchant env cache merchantName).2.1 merchantName).2.2 =
      false := by
  rw [Option.isSome_iff_exists] at hknown
  obtain ⟨base, hbase⟩ := hknown
  have h1 : handleMerchant env cache merchantName =
      (some (buildResult env base merchantName),
       insertList cache merchantName (buildResult env base merchantName), true) := by
    unfold handleMerchant
    rw [hbase, hmiss]
  have h2 : handleMerchant env
      (insertList cache merchantName (buildResult env base merchantName)) merchantName =
      (some (buildResult env base merchantName),
       insertList cache merchantName (buildResult env base merchantName), false) := by
    unfold handleMerchant
    rw [hbase, lookupList_insert_self]
  rw [h1, h2]
  exact ⟨rfl, rfl, rfl, rfl⟩

theorem startsWith_append (pre s : List Char) : startsWith (pre ++ s) pre = true := by
  induction pre with
  | nil => cases s <;> rfl
  | cons c pre' ih => simp [startsWith, ih]

/-- Claim C8 (amended): the cache key is the verbatim path remainder —
route prefix stripped, surrounding slashes trimmed, no whitespace trimming
and no case folding — and a resolve for one key never touches the entry of
any other key, so case- or whitespace-variant names occupy distinct,
independent cache entries. -/
theorem cacheKey_raw_and_isolation (s n1 n2 : List Char) (env : ServerEnv)
    (cache : List (List Char × MerchantResult)) (hne : n1 ≠ n2) :
    cacheKey ("/api/merchant/".toList ++ s) = trimSlash s ∧
    lookupList (handleMerchant env cache n1).2.1 n2 = lookupList cache n2 := by
  constructor
  · unfold cacheKey trimPrefixOf
    rw [if_pos (startsWith_append "/api/merchant/".toList s), List.drop_left]
  · unfold handleMerchant
    cases hres : lookupList env.results n1 with
    | none => rfl
    | some base =>
      cases hc : lookupList cache n1 with
      | some v => rfl
      | none => exact lookupList_insert_ne cache n1 n2 _ (Ne.symm hne)

/-- Claim C1 (amended): over every interleaving of two concurrent handler
invocations, at most one registry fetch happens per caller (so at most
two in total, not exactly one), and every caller that completes receives
exactly the value the environment determines for its name. -/
theorem concurrent_at_most_two_fetches_and_agreement (env : ServerEnv)
    (nameA nameB : List Char) (sched : List Bool) :
    fetchCount (run env nameA nameB sched initConfig) ≤ 2 ∧
    (∀ response, (run env nameA nameB sched initConfig).pa = .finished response →
      response = expected env nameA) ∧
    (∀ response, (run env nameA nameB sched initConfig).pb = .finished response →
      response = expected env nameB) := by
  have hInv : Inv env nameA nameB (run env nameA nameB sched initConfig) := by
    apply run_preserves
    refine ⟨?_, trivial, trivial⟩
    intro k v h
    simp [lookupList] at h
  obtain ⟨hc, hpa, hpb⟩ := hInv
  refine ⟨?_, ?_, ?_⟩
  · unfold fetchCount
    cases (run env nameA nameB sched initConfig).fa <;>
      cases (run env nameA nameB sched initConfig).fb <;> simp
  · intro response hr
    have hre := hpa
    rw [hr] at hre
    exact hre
  · intro response hr
    have hre := hpb
    rw [hr] at hre
    exact hre

/-! ## Concrete data for counterexamples and witnesses -/

deriving instance DecidableEq for Except

/-- A raw record that passes extraction (whitespace to exercise the
trimming). -/
def demoRec : SearchResultsRecord :=
  { identifierValue := " 50169260144 ".toList
    identifierStatus := " Active ".toList
    stateCode := "NSW".toList
    businessNameOrg := "Apple Pty Ltd".toList
    businessNameScore := "95".toList
    mainNameOrg := []
    mainTradingNameOrg := []
    mainTradingNameScore := [] }

/-- The candidate `demoRec` extracts to. -/
def demoRes : Result :=
  { ABN := "50169260144".toList
    State := "NSW".toList
    LegalName := "Apple Pty Ltd".toList
    Score := "95".toList }

/-- The fresher Stage-2 record for the same ABN. -/
def demoRec2 : SearchResultsRecord :=
  { identifierValue := "50169260144".toList
    identifierStatus := "Active".toList
    stateCode := "VIC".toList
    businessNameOrg := "Apple Pty Ltd".toList
    businessNameScore := "98".toList
    mainNameOrg := []
    mainTradingNameOrg := []
    mainTradingNameScore := [] }

/-- The candidate `demoRec2` extracts to. -/
def demoRes2 : Result :=
  { ABN := "50169260144".toList
    State := "VIC".toList
    LegalName := "Apple Pty Ltd".toList
    Score := "98".toList }

/-- A registry environment: searching "Apple" finds `demoRec`, the
re-verification search by legal name finds `demoRec2`, anything else
fails at the transport. -/
def demoAbrEnv : AbrEnv :=
  { search := fun n =>
      if n = "Apple".toList then .ok "XML1".toList
      else if n = "Apple Pty Ltd".toList then .ok "XML2".toList
      else .error ()
    decode := fun x =>
      if x = "XML1".toList then some [demoRec]
      else if x = "XML2".toList then some [demoRec2]
      else none }

/-- Spec §8 scenario candidate: "Acme Holdings Pty Ltd", score 60. -/
def acmeHoldings : Result :=
  { ABN := "11111111111".toList
    State := "NSW".toList
    LegalName := "Acme Holdings Pty Ltd".toList
    Score := "60".toList }

/-- Spec §8 scenario candidate: "Acme Cleaning Pty Ltd", score 80. -/
def acmeCleaning : Result :=
  { ABN := "22222222222".toList
    State := "VIC".toList
    LegalName := "Acme Cleaning Pty Ltd".toList
    Score := "80".toList }

/-- A CSV row as preloaded by `LoadResults`. -/
def demoBase : MerchantResult :=
  { name := "Apple".toList
    googleLegalName := []
    googleState := []
    googlePostcode := []
    abnFound := "50169260144".toList
    abnLegalName := "Apple Pty Ltd".toList
    abnState := "NSW".toList
    verified := "Yes".toList
    abnCount := 0
    allABNResults := [] }

/-- A server environment whose results map knows both "Apple" and
"apple". -/
def demoServerEnv : ServerEnv :=
  { results := [("Apple".toList, demoBase), ("apple".toList, demoBase)]
    fetch := fun _ => [demoRes]
    ginfo := fun _ =>
      { legalName := "Apple Pty Ltd".toList
        state := "NSW".toList
        postcode := "2000".toList } }

/-- Both callers read the cold cache before either writes. -/
def demoSched : List Bool := [true, false, true, true, false, false]

/-! ## Counterexamples and witnesses -/

/-- Counterexample to claim C1 as stated: two concurrent callers resolve
the same cold name "apple"; in the interleaving where both read before
either writes, the registry fetch runs twice — not exactly once — even
though both callers do receive the same result. -/
theorem concurrent_single_flight_refuted :
    fetchCount (run demoServerEnv "apple".toList "apple".toList demoSched initConfig) = 2 ∧
    (run demoServerEnv "apple".toList "apple".toList demoSched initConfig).pa =
      Phase.finished (some (buildResult demoServerEnv demoBase "apple".toList)) ∧
    (run demoServerEnv "apple".toList "apple".toList demoSched initConfig).pb =
      Phase.finished (some (buildResult demoServerEnv demoBase "apple".toList)) := by
  decide

theorem concurrent_at_most_two_fetches_and_agreement_witness :
    ((run demoServerEnv "apple".toList "apple".toList demoSched initConfig).pa =
      Phase.finished (some (buildResult demoServerEnv demoBase "apple".toList))) ∧
    some (buildResult demoServerEnv demoBase "apple".toList) =
      expected demoServerEnv "apple".toList :=
  ⟨by decide,
   (concurrent_at_most_two_fetches_and_agreement demoServerEnv "apple".toList
      "apple".toList demoSched).2.1 _ (by decide)⟩

theorem stage1_failures_yield_no_match_witness :
    demoAbrEnv.search "zzz".toList = .error () ∧
    Lookup demoAbrEnv "zzz".toList = emptyResult :=
  ⟨by decide, (stage1_failures_yield_no_match demoAbrEnv "zzz".toList []).1 (by decide)⟩

theorem extraction_active_wellformed_witness :
    demoRes ∈ getAllResults [demoRec] ∧
    (abnPattern demoRes.ABN = true ∧
      ∃ rec0 ∈ [demoRec], trim rec0.identifierStatus = "Active".toList ∧
        extractRecord rec0 = some demoRes) :=
  ⟨by decide, (extraction_active_wellformed demoRec [demoRec] demoRes).2 (by decide)⟩

theorem composite_score_formula_witness :
    demoRes ∈ getAllResults [demoRec] ∧
    ∃ e, scoreEntry (toLower (trim "Apple".toList))
        (stringToSet (fields (toLower (trim "Apple".toList)))) demoRes = some e ∧
      e = (specCompositeScore "Apple".toList demoRes, demoRes) := by
  refine ⟨by decide, ?_⟩
  have hs : (scoreEntry (toLower (trim "Apple".toList))
      (stringToSet (fields (toLower (trim "Apple".toList)))) demoRes).isSome = true := by
    decide
  refine ⟨(scoreEntry (toLower (trim "Apple".toList))
      (stringToSet (fields (toLower (trim "Apple".toList)))) demoRes).get hs,
    (Option.some_get hs).symm, ?_⟩
  exact composite_score_formula [demoRec] "Apple".toList demoRes _ (by decide)
    (Option.some_get hs).symm

theorem rank_selects_first_max_witness :
    scoredResults "Acme Cleaning Services".toList [acmeHoldings, acmeCleaning] ≠ [] ∧
    ∃ q pre suf,
      scoredResults "Acme Cleaning Services".toList [acmeHoldings, acmeCleaning] =
        pre ++ (q, findBestResult "Acme Cleaning Services".toList
          [acmeHoldings, acmeCleaning]) :: suf ∧
      (∀ x ∈ scoredResults "Acme Cleaning Services".toList [acmeHoldings, acmeCleaning],
        x.1 ≤ q) ∧
      (∀ x ∈ pre, x.1 < q) :=
  ⟨by decide,
   rank_selects_first_max "Acme Cleaning Services".toList [acmeHoldings, acmeCleaning]
     (by decide)⟩

theorem gates_characterization_witness :
    specGateCompany acmeCleaning ∧
    specGateOverlap "Acme Cleaning Services".toList acmeCleaning ∧
    specGateNoise "Acme Cleaning Services".toList acmeCleaning :=
  (gates_characterization "Acme Cleaning Services".toList acmeCleaning).mp (by decide)

theorem stage2_replace_or_keep_witness :
    demoAbrEnv.search "Apple".toList = .ok "XML1".toList ∧
    demoRes = findBestResult "Apple".toList (getAllResultsXml demoAbrEnv "XML1".toList) ∧
    demoRes.ABN ≠ [] ∧ demoRes.LegalName ≠ [] ∧
    (getAllResultsXml demoAbrEnv "XML2".toList).find?
      (fun result => result.ABN == demoRes.ABN) = some demoRes2 ∧
    Lookup demoAbrEnv "Apple".toList = demoRes2 :=
  ⟨by decide, by decide, by decide, by decide, by decide,
   ((stage2_replace_or_keep demoAbrEnv "Apple".toList "XML1".toList demoRes
      (by decide) (by decide) (by decide) (by decide)).2 "XML2".toList
      (by decide)).2.2 demoRes2 (by decide)⟩

theorem winner_company_and_stage2_always_witness :
    findBestResult "Apple".toList [demoRes] = demoRes ∧
    demoRes ≠ emptyResult ∧
    ((∃ keyword ∈ companyKeywords,
        containsSub (toLower demoRes.LegalName) keyword = true) ∧
      demoRes.LegalName ≠ []) ∧
    demoAbrEnv.search "Apple".toList = .ok "XML1".toList ∧
    (findBestResult "Apple".toList (getAllResultsXml demoAbrEnv "XML1".toList)).ABN ≠ [] ∧
    ((findBestResult "Apple".toList (getAllResultsXml demoAbrEnv "XML1".toList)).LegalName ≠ [] ∧
      Lookup demoAbrEnv "Apple".toList =
        stage2 demoAbrEnv
          (findBestResult "Apple".toList (getAllResultsXml demoAbrEnv "XML1".toList))) :=
  ⟨by decide, by decide,
   (winner_company_and_stage2_always "Apple".toList [demoRes] demoRes demoAbrEnv
      "XML1".toList).1 (by decide) (by decide),
   by decide, by decide,
   (winner_company_and_stage2_always "Apple".toList [demoRes] demoRes demoAbrEnv
      "XML1".toList).2 (by decide) (by decide)⟩

theorem cache_sequential_idempotent_witness :
    lookupList ([] : List (List Char × MerchantResult)) "Apple".toList = none ∧
    (lookupList demoServerEnv.results "Apple".toList).isSome = true ∧
    ((handleMerchant demoServerEnv [] "Apple".toList).2.2 = true ∧
     (handleMerchant demoServerEnv
        (handleMerchant demoServerEnv [] "Apple".toList).2.1 "Apple".toList).1 =
       (handleMerchant demoServerEnv [] "Apple".toList).1 ∧
     (handleMerchant demoServerEnv
        (handleMerchant demoServerEnv [] "Apple".toList).2.1 "Apple".toList).2.1 =
       (handleMerchant demoServerEnv [] "Apple".toList).2.1 ∧
     (handleMerchant demoServerEnv
        (handleMerchant demoServerEnv [] "Apple".toList).2.1 "Apple".toList).2.2 =
       false) :=
  ⟨rfl, by decide,
   cache_sequential_idempotent demoServerEnv [] "Apple".toList rfl (by decide)⟩

/-- Counterexample to claim C8 as stated: the keys for "Apple" and
"apple" differ, and after resolving "Apple" a resolve of "apple" misses
the cache and fetches again — case variants do not share a cache
entry. -/
theorem cacheKey_normalization_refuted :
    cacheKey "/api/merchant/Apple".toList ≠ cacheKey "/api/merchant/apple".toList ∧
    (handlePath demoServerEnv [] "/api/merchant/Apple".toList).2.2 = true ∧
    (handlePath demoServerEnv
      (handlePath demoServerEnv [] "/api/merchant/Apple".toList).2.1
      "/api/merchant/apple".toList).2.2 = true := by
  decide

theorem cacheKey_raw_and_isolation_witness :
    ("Apple".toList ≠ "apple".toList) ∧
    (cacheKey ("/api/merchant/".toList ++ "Apple ".toList) = trimSlash "Apple ".toList ∧
     lookupList (handleMerchant demoServerEnv [] "Apple".toList).2.1 "apple".toList =
       lookupList ([] : List (List Char × MerchantResult)) "apple".toList) :=
  ⟨by decide,
   cacheKey_raw_and_isolation "Apple ".toList "Apple".toList "apple".toList
     demoServerEnv [] (by decide)⟩

end MerchantCache
